import Mathlib

/-!
Shallow embedding of the finance knowledge-base retrieval engine:
`FinanceVectorStore` (src/rag/vector_store.py) and `FinanceRetriever`
(src/rag/retriever.py).

Modelling conventions:
* Machine floats are modelled as exact numbers: similarity scores and inner
  products as `ℚ`; embedding coordinates, where L2 normalization matters, as `ℝ`.
* The embedding model, the langchain text splitter and the faiss library are
  external dependencies.  They enter the model as parameters (`embed`, `split`)
  or as faithful renditions of their documented behaviour (exact top-n inner
  product search; when fewer than n vectors are stored, faiss pads the label
  array with `-1` entries).
* Python exceptions are modelled with `Option`: a `none` result means the code
  raises.  Operations that catch all exceptions internally are total functions.
* External failure events (an embedding call failing for a chunk, a persisted
  artifact failing to deserialize) are explicit inputs of the corresponding
  operations, mirroring the `try/except` structure of the source.
-/

namespace FinRAG

/-- Metadata dictionary attached by the caller to an ingested document.
`none` models an absent key, read through `dict.get(key, default)`. -/
structure DocMeta where
  source : Option String
  category : Option String
  doc_id : Option String
deriving DecidableEq

/-- An input document (`langchain.schema.Document`): page content plus metadata. -/
structure Document where
  page_content : String
  metadata : DocMeta
deriving DecidableEq

/-- Per-chunk metadata dict built in `FinanceVectorStore.add_documents`
(vector_store.py lines 125-130). -/
structure ChunkMeta where
  source : String
  category : String
  chunk_id : String
  original_doc_id : String
deriving DecidableEq

/-- The chunk-metadata dict for chunk number `i` of a document
(vector_store.py lines 125-130). -/
def mkChunkMeta (md : DocMeta) (i : ℕ) : ChunkMeta :=
  { source := md.source.getD "unknown"
    category := md.category.getD "general"
    chunk_id := md.source.getD "unknown" ++ "_" ++ toString i
    original_doc_id := md.doc_id.getD "unknown" }

/-- State of a `FinanceVectorStore`: the in-memory triple
(`self.index`, `self.documents`, `self.metadata`) plus the three on-disk
artifacts (`{index_path}.faiss`, `{index_path}_docs.pkl`,
`{index_path}_metadata.pkl`).  `none` models a missing index / missing file.
`E` is the embedding-vector type. -/
structure VSState (E : Type) where
  index : Option (List E)
  documents : List String
  metadata : List ChunkMeta
  disk_faiss : Option (List E)
  disk_docs : Option (List String)
  disk_meta : Option (List ChunkMeta)
deriving DecidableEq

/-- Number of vectors held by the FAISS index (`self.index.ntotal`; 0 when unset). -/
def ntotal {E : Type} (s : VSState E) : ℕ := (s.index.getD []).length

/-- Freshly constructed store over an empty disk: `__init__` sets
`index = None, documents = [], metadata = []` and `_load_index` finds no files. -/
def initState {E : Type} : VSState E :=
  ⟨none, [], [], none, none, none⟩

/-- Chunk-metadata entries for the chunks of one document, indexed from `i`
(the `for i, chunk in enumerate(doc_chunks)` loop). -/
def chunkMetas (md : DocMeta) : ℕ → List String → List ChunkMeta
  | _, [] => []
  | i, _ :: cs => mkChunkMeta md i :: chunkMetas md (i + 1) cs

/-- All chunk texts produced from a document batch, in order
(`chunks` in add_documents; `split` models the external
RecursiveCharacterTextSplitter). -/
def allChunks (split : String → List String) (docs : List Document) : List String :=
  (docs.map fun d => split d.page_content).flatten

/-- All chunk-metadata entries produced from a document batch, in order
(`chunk_metadata` in add_documents). -/
def allChunkMetas (split : String → List String) (docs : List Document) : List ChunkMeta :=
  (docs.map fun d => chunkMetas d.metadata 0 (split d.page_content)).flatten

/-- Embeddings collected into `all_embeddings` (vector_store.py lines 140-159):
chunks are embedded in order; a chunk whose embedding call fails (batch call
failed and the individual retry also failed) is skipped with a log message.
`outcomes i` tells whether the embedding call for chunk number `i` succeeds;
the surviving embeddings keep their relative order. -/
def successfulEmbeds {E : Type} (embed : String → E) (outcomes : ℕ → Bool) :
    List String → ℕ → List E
  | [], _ => []
  | c :: cs, i =>
    if outcomes i then embed c :: successfulEmbeds embed outcomes cs (i + 1)
    else successfulEmbeds embed outcomes cs (i + 1)

/-- `_save_index` (vector_store.py lines 227-238): writes the FAISS index only
when `self.index is not None`, and always rewrites the documents and metadata
pickles. -/
def _save_index {E : Type} (s : VSState E) : VSState E :=
  { s with
    disk_faiss := match s.index with
      | none => s.disk_faiss
      | some v => some v
    disk_docs := some s.documents
    disk_meta := some s.metadata }

/-- The in-memory reset performed by the `except` handler of `_load_index`
(vector_store.py lines 253-257); the disk is untouched. -/
def resetMem {E : Type} (s : VSState E) : VSState E :=
  { s with index := none, documents := [], metadata := [] }

/-- `_load_index` (vector_store.py lines 240-257).  Each of the three artifacts
is read only if its file exists; a missing file leaves the corresponding
in-memory field unchanged.  `ok = false` models a deserialization failure
(`faiss.read_index` or `pickle.load` raising), which is only possible when at
least one file exists; the handler then resets the in-memory state and the
exception does not propagate.  No length-alignment check is performed. -/
def _load_index {E : Type} (s : VSState E) (ok : Bool) : VSState E :=
  if ok then
    { s with
      index := match s.disk_faiss with
        | none => s.index
        | some f => some f
      documents := s.disk_docs.getD s.documents
      metadata := s.disk_meta.getD s.metadata }
  else
    match s.disk_faiss, s.disk_docs, s.disk_meta with
    | none, none, none => s
    | _, _, _ => resetMem s

/-- `add_documents` (vector_store.py lines 105-185): chunk all documents, embed
each chunk (skipping chunks whose embedding fails, see `successfulEmbeds`);
if no embedding succeeded return early; otherwise L2-normalize the new
embeddings, add them to the index, extend `self.documents` with
`chunks[:len(all_embeddings)]` and `self.metadata` with
`chunk_metadata[:len(all_embeddings)]`, and save. -/
def add_documents {E : Type} (split : String → List String) (embed : String → E)
    (normalize : E → E) (s : VSState E) (docs : List Document)
    (outcomes : ℕ → Bool) : VSState E :=
  match successfulEmbeds embed outcomes (allChunks split docs) 0 with
  | [] => s
  | e :: es =>
    _save_index
      { s with
        index := some (s.index.getD [] ++ (e :: es).map normalize)
        documents := s.documents ++ (allChunks split docs).take (e :: es).length
        metadata := s.metadata ++ (allChunkMetas split docs).take (e :: es).length }

/-- One completed operation of the store: an `add_documents` call (with
arbitrary per-chunk embedding outcomes), a `_save_index` call, or a
`_load_index` call (with either deserialization outcome). -/
inductive Step {E : Type} (split : String → List String) (embed : String → E)
    (normalize : E → E) : VSState E → VSState E → Prop
  | add (s : VSState E) (docs : List Document) (outcomes : ℕ → Bool) :
      Step split embed normalize s (add_documents split embed normalize s docs outcomes)
  | save (s : VSState E) :
      Step split embed normalize s (_save_index s)
  | load (s : VSState E) (ok : Bool) :
      Step split embed normalize s (_load_index s ok)

/-- States reachable from a freshly constructed store by completed operations. -/
def Reachable {E : Type} (split : String → List String) (embed : String → E)
    (normalize : E → E) (s : VSState E) : Prop :=
  Relation.ReflTransGen (Step split embed normalize) initState s

/-- Like `Step`, but every `_load_index` call deserializes successfully
(missing files are still skipped). -/
inductive StepOk {E : Type} (split : String → List String) (embed : String → E)
    (normalize : E → E) : VSState E → VSState E → Prop
  | add (s : VSState E) (docs : List Document) (outcomes : ℕ → Bool) :
      StepOk split embed normalize s (add_documents split embed normalize s docs outcomes)
  | save (s : VSState E) :
      StepOk split embed normalize s (_save_index s)
  | load (s : VSState E) :
      StepOk split embed normalize s (_load_index s true)

/-- States reachable when no load ever hits a deserialization failure. -/
def ReachableOk {E : Type} (split : String → List String) (embed : String → E)
    (normalize : E → E) (s : VSState E) : Prop :=
  Relation.ReflTransGen (StepOk split embed normalize) initState s

/-- The alignment invariant of the three parallel in-memory containers. -/
def Aligned {E : Type} (s : VSState E) : Prop :=
  ntotal s = s.documents.length ∧ s.documents.length = s.metadata.length

/-- Consistency between the in-memory state and the three on-disk artifacts.
Maintained by every run in which no load hits a deserialization failure. -/
def DiskOk {E : Type} (s : VSState E) : Prop :=
  (s.index = none ↔ s.disk_faiss = none) ∧
  (∀ f, s.disk_faiss = some f →
    ∃ d m, s.disk_docs = some d ∧ s.disk_meta = some m ∧
      f.length = d.length ∧ d.length = m.length) ∧
  (s.disk_faiss = none →
    (s.disk_docs = none ∨ s.disk_docs = some []) ∧
    (s.disk_meta = none ∨ s.disk_meta = some []))

/-- The inductive invariant used for the alignment claim. -/
def StoreInv {E : Type} (s : VSState E) : Prop := Aligned s ∧ DiskOk s

lemma chunkMetas_length (md : DocMeta) : ∀ (i : ℕ) (cs : List String),
    (chunkMetas md i cs).length = cs.length
  | _, [] => rfl
  | i, _ :: cs => by
    simp only [chunkMetas, List.length_cons, chunkMetas_length md (i + 1) cs]

lemma allChunkMetas_length (split : String → List String) (docs : List Document) :
    (allChunkMetas split docs).length = (allChunks split docs).length := by
  induction docs with
  | nil => rfl
  | cons d ds ih =>
    simp only [allChunkMetas, allChunks, List.map_cons, List.flatten_cons,
      List.length_append] at *
    rw [chunkMetas_length, ih]

lemma successfulEmbeds_length_le {E : Type} (embed : String → E) (outcomes : ℕ → Bool) :
    ∀ (cs : List String) (i : ℕ),
      (successfulEmbeds embed outcomes cs i).length ≤ cs.length
  | [], _ => le_refl _
  | c :: cs, i => by
    simp only [successfulEmbeds]
    split
    · simpa using Nat.succ_le_succ (successfulEmbeds_length_le embed outcomes cs (i + 1))
    · exact le_trans (successfulEmbeds_length_le embed outcomes cs (i + 1)) (Nat.le_succ _)

lemma aligned_initState {E : Type} : Aligned (initState (E := E)) := ⟨rfl, rfl⟩

lemma storeInv_initState {E : Type} : StoreInv (initState (E := E)) := by
  refine ⟨aligned_initState, ⟨Iff.rfl, ?_, ?_⟩⟩
  · intro f hf; cases hf
  · intro _; exact ⟨Or.inl rfl, Or.inl rfl⟩

lemma storeInv_saveIndex {E : Type} {s : VSState E} (h : StoreInv s) :
    StoreInv (_save_index s) := by
  obtain ⟨⟨h1, h2⟩, hb, hc, hd⟩ := h
  cases hI : s.index with
  | none =>
    have hdf : s.disk_faiss = none := hb.mp hI
    have h0 : s.documents.length = 0 := by
      have : ntotal s = 0 := by simp [ntotal, hI]
      omega
    have hdocs : s.documents = [] := List.length_eq_zero.mp h0
    have hmeta : s.metadata = [] := List.length_eq_zero.mp (by omega)
    refine ⟨⟨h1, h2⟩, ?_, ?_, ?_⟩
    · simp [_save_index, hI, hdf]
    · intro f hf
      simp [_save_index, hI, hdf] at hf
    · intro _
      simp [_save_index, hdocs, hmeta]
  | some v =>
    have hv : v.length = s.documents.length := by
      have : ntotal s = v.length := by simp [ntotal, hI]
      omega
    refine ⟨⟨h1, h2⟩, ?_, ?_, ?_⟩
    · simp [_save_index, hI]
    · intro f hf
      simp only [_save_index, hI] at hf
      cases hf
      exact ⟨s.documents, s.metadata, rfl, rfl, hv, h2⟩
    · intro hcontra
      simp [_save_index, hI] at hcontra

lemma storeInv_saveIndex_pop {E : Type} {s : VSState E} {v : List E}
    (hI : s.index = some v) (hA : Aligned s) : StoreInv (_save_index s) := by
  obtain ⟨h1, h2⟩ := hA
  have hv : v.length = s.documents.length := by
    have : ntotal s = v.length := by simp [ntotal, hI]
    omega
  refine ⟨⟨h1, h2⟩, ?_, ?_, ?_⟩
  · simp [_save_index, hI]
  · intro f hf
    simp only [_save_index, hI] at hf
    cases hf
    exact ⟨s.documents, s.metadata, rfl, rfl, hv, h2⟩
  · intro hcontra
    simp [_save_index, hI] at hcontra

lemma storeInv_loadIndex_ok {E : Type} {s : VSState E} (h : StoreInv s) :
    StoreInv (_load_index s true) := by
  obtain ⟨⟨h1, h2⟩, hb, hc, hd⟩ := h
  cases hdf : s.disk_faiss with
  | some f =>
    obtain ⟨d, m, hdd, hdm, hfd, hdm2⟩ := hc f hdf
    refine ⟨⟨?_, ?_⟩, ?_, ?_, ?_⟩
    · simp [ntotal, _load_index, hdf, hdd]
      omega
    · simp [_load_index, hdd, hdm]
      omega
    · simp [_load_index, hdf]
    · intro f' hf'
      simp only [_load_index, if_true] at hf'
      exact hc f' hf'
    · intro hno
      simp only [_load_index, if_true] at hno
      rw [hdf] at hno
      cases hno
  | none =>
    have hidx : s.index = none := hb.mpr hdf
    have h0 : s.documents.length = 0 := by
      have : ntotal s = 0 := by simp [ntotal, hidx]
      omega
    have hdocs : s.documents = [] := List.length_eq_zero.mp h0
    have hmeta : s.metadata = [] := List.length_eq_zero.mp (by omega)
    obtain ⟨hdd, hdm⟩ := hd hdf
    have hdocs2 : s.disk_docs.getD s.documents = [] := by
      cases hdd with
      | inl h' => simp [h', hdocs]
      | inr h' => simp [h']
    have hmeta2 : s.disk_meta.getD s.metadata = [] := by
      cases hdm with
      | inl h' => simp [h', hmeta]
      | inr h' => simp [h']
    refine ⟨⟨?_, ?_⟩, ?_, ?_, ?_⟩
    · simp [ntotal, _load_index, hdf, hidx, hdocs2]
    · simp [_load_index, hdocs2, hmeta2]
    · simp [_load_index, hdf, hidx]
    · intro f' hf'
      simp only [_load_index, if_true] at hf'
      rw [hdf] at hf'
      cases hf'
    · intro _
      simp only [_load_index, if_true]
      exact hd hdf

lemma storeInv_addDocuments {E : Type} (split : String → List String)
    (embed : String → E) (normalize : E → E) {s : VSState E} (h : StoreInv s)
    (docs : List Document) (outcomes : ℕ → Bool) :
    StoreInv (add_documents split embed normalize s docs outcomes) := by
  unfold add_documents
  cases hE : successfulEmbeds embed outcomes (allChunks split docs) 0 with
  | nil => exact h
  | cons e es =>
    obtain ⟨⟨h1, h2⟩, _⟩ := h
    have hle : (e :: es).length ≤ (allChunks split docs).length := by
      rw [← hE]; exact successfulEmbeds_length_le embed outcomes _ 0
    have hle2 : (e :: es).length ≤ (allChunkMetas split docs).length := by
      rw [allChunkMetas_length]; exact hle
    refine storeInv_saveIndex_pop rfl ⟨?_, ?_⟩
    · simp only [List.length_cons] at hle
      simp [ntotal]
      simp [ntotal] at h1
      omega
    · simp only [List.length_cons] at hle hle2
      simp
      omega

lemma storeInv_of_reachableOk {E : Type} (split : String → List String)
    (embed : String → E) (normalize : E → E) {s : VSState E}
    (h : ReachableOk split embed normalize s) : StoreInv s := by
  induction h with
  | refl => exact storeInv_initState
  | tail _ hstep ih =>
    cases hstep with
    | add docs outcomes => exact storeInv_addDocuments _ _ _ ih _ _
    | save => exact storeInv_saveIndex ih
    | load => exact storeInv_loadIndex_ok ih

/-- C1 (amended): for every state reachable by a completed sequence of
operations in which every `_load_index` call deserializes successfully, the
number of vectors in the FAISS index equals `len(self.documents)` equals
`len(self.metadata)` — in particular, the truncation
`chunks[:len(all_embeddings)]` keeps the lengths equal even when part of an
embedding batch fails. -/
theorem c1_alignment_of_successful_loads {E : Type} (split : String → List String)
    (embed : String → E) (normalize : E → E) (s : VSState E)
    (h : ReachableOk split embed normalize s) :
    ntotal s = s.documents.length ∧ s.documents.length = s.metadata.length :=
  (storeInv_of_reachableOk split embed normalize h).1

/-- Text splitter used by concrete runs: one chunk per document. -/
def splitW : String → List String := fun t => [t]

/-- Concrete ingested document used by concrete runs. -/
def docW : Document := ⟨"retirement planning basics", ⟨some "s", some "c", some "d"⟩⟩

/-- Concrete embedding function (ℚ-valued) for the C1 run. -/
def embedW1 : String → ℚ := fun _ => 1

/-- C1 run, step 1: a fully successful `add_documents` (1 chunk, saved to disk). -/
def s1a : VSState ℚ := add_documents splitW embedW1 id initState [docW] fun _ => true

/-- C1 run, step 2: a `_load_index` whose deserialization fails; the handler
resets the in-memory state but the three files stay on disk. -/
def s1b : VSState ℚ := _load_index s1a false

/-- C1 run, step 3: `_save_index` with `self.index is None`: it rewrites the
two pickles as empty but leaves the stale `.faiss` file (1 vector) on disk. -/
def s1c : VSState ℚ := _save_index s1b

/-- C1 run, step 4: a successful `_load_index` reads the stale `.faiss` file
together with the two empty pickles. -/
def s1d : VSState ℚ := _load_index s1c true

/-- C1 counterexample: the final state of the four-operation run above is
reachable, yet its FAISS index holds 1 vector while `documents` and `metadata`
are empty — the three parallel containers are not equally long. -/
theorem c1_counterexample :
    Reachable splitW embedW1 id s1d ∧
      ¬ (ntotal s1d = s1d.documents.length ∧
          s1d.documents.length = s1d.metadata.length) := by
  constructor
  · exact (((Relation.ReflTransGen.single
        (Step.add initState [docW] fun _ => true)).tail
        (Step.load s1a false)).tail
        (Step.save s1b)).tail
        (Step.load s1c true)
  · decide

/-- Witness for C1 (amended): the state after one successful `add_documents`
is reachable without load failures and satisfies the alignment property. -/
theorem c1_witness :
    ReachableOk splitW embedW1 id s1a ∧
      (ntotal s1a = s1a.documents.length ∧
        s1a.documents.length = s1a.metadata.length) :=
  have hr : ReachableOk splitW embedW1 id s1a :=
    Relation.ReflTransGen.single (StepOk.add initState [docW] fun _ => true)
  ⟨hr, c1_alignment_of_successful_loads splitW embedW1 id s1a hr⟩

/-- Text splitter for the C2 run: the document yields two chunks. -/
def splitW2 : String → List String := fun _ => ["aa", "bb"]

/-- Ingested document for the C2 run. -/
def docW2 : Document := ⟨"aa bb", ⟨some "s", some "c", some "d"⟩⟩

/-- Embedding outcomes for the C2 run: the batch call fails, the individual
retry fails for chunk 0 ("aa") and succeeds for chunk 1 ("bb"). -/
def outcomesW2 : ℕ → Bool := fun i => decide (i = 1)

/-- The store after the partially failed `add_documents` of the C2 run
(embeddings taken as the chunk text itself, so the pairing is visible). -/
def sW2 : VSState String :=
  add_documents splitW2 (fun c => c) (fun e => e) initState [docW2] outcomesW2

/-- C2 (code bug, evaluated at the failing input): after a batch in which only
the embedding of chunk "bb" succeeds, the index holds exactly the vector of
"bb" while `documents`/`metadata` were extended with `chunks[:1] = ["aa"]` —
the surviving vector is paired with the text and metadata of a different
chunk, so the batch was neither discarded nor fully applied, and the pairing
contradicts the code's own comment "only for successfully processed chunks". -/
theorem c2_partial_batch_mispairs :
    sW2.index = some ["bb"] ∧ sW2.documents = ["aa"] ∧
      sW2.metadata = [⟨"s", "c", "s_0", "d"⟩] ∧ ("aa" : String) ≠ "bb" := by
  decide

/-- Sum of squared coordinates of a vector: the square of its L2 norm. -/
def sumSq (v : List ℝ) : ℝ := (v.map fun x => x ^ 2).sum

/-- `faiss.normalize_L2` applied to one vector: every coordinate is divided by
the vector's L2 norm (vector_store.py lines 172-173). -/
noncomputable def normalizeL2 (v : List ℝ) : List ℝ :=
  v.map fun x => x / Real.sqrt (sumSq v)

lemma sumSq_map_div (v : List ℝ) (c : ℝ) :
    sumSq (v.map fun x => x / c) = sumSq v / c ^ 2 := by
  induction v with
  | nil => simp [sumSq]
  | cons x xs ih =>
    simp only [sumSq, List.map_cons, List.sum_cons] at *
    rw [div_pow, ih, add_div]

lemma sumSq_normalizeL2 {v : List ℝ} (h : 0 < sumSq v) : sumSq (normalizeL2 v) = 1 := by
  unfold normalizeL2
  rw [sumSq_map_div, Real.sq_sqrt h.le, div_self h.ne']

/-- All vectors in the index, and in the on-disk index file, have unit norm. -/
def NormInv (s : VSState (List ℝ)) : Prop :=
  (∀ v ∈ s.index.getD [], sumSq v = 1) ∧
  (∀ f, s.disk_faiss = some f → ∀ v ∈ f, sumSq v = 1)

lemma successfulEmbeds_mem {E : Type} (embed : String → E) (outcomes : ℕ → Bool) :
    ∀ (cs : List String) (i : ℕ) (e : E),
      e ∈ successfulEmbeds embed outcomes cs i → ∃ c, e = embed c
  | [], _, e, h => absurd h (List.not_mem_nil e)
  | c :: cs, i, e, h => by
    simp only [successfulEmbeds] at h
    split at h
    · rcases List.mem_cons.mp h with h | h
      · exact ⟨c, h⟩
      · exact successfulEmbeds_mem embed outcomes cs (i + 1) e h
    · exact successfulEmbeds_mem embed outcomes cs (i + 1) e h

lemma normInv_saveIndex {s : VSState (List ℝ)} (h : NormInv s) :
    NormInv (_save_index s) := by
  obtain ⟨h1, h2⟩ := h
  refine ⟨h1, ?_⟩
  intro f hf
  cases hI : s.index with
  | none =>
    simp only [_save_index, hI] at hf
    exact h2 f hf
  | some v =>
    simp only [_save_index, hI] at hf
    cases hf
    have := h1
    simp only [hI, Option.getD_some] at this
    exact this

lemma normInv_resetMem {s : VSState (List ℝ)} (h : NormInv s) :
    NormInv (resetMem s) := by
  obtain ⟨_, h2⟩ := h
  refine ⟨?_, h2⟩
  intro v hv
  simp [resetMem] at hv

lemma normInv_loadIndex {s : VSState (List ℝ)} (ok : Bool) (h : NormInv s) :
    NormInv (_load_index s ok) := by
  obtain ⟨h1, h2⟩ := h
  cases ok with
  | true =>
    refine ⟨?_, ?_⟩
    · cases hdf : s.disk_faiss with
      | none =>
        simp only [_load_index, if_true, hdf]
        exact h1
      | some f =>
        simp only [_load_index, if_true, hdf, Option.getD_some]
        exact h2 f hdf
    · intro f hf
      simp only [_load_index, if_true] at hf
      exact h2 f hf
  | false =>
    unfold _load_index
    simp only [Bool.false_eq_true, if_false]
    split
    · exact ⟨h1, h2⟩
    · exact normInv_resetMem ⟨h1, h2⟩

lemma normInv_addDocuments (split : String → List String) (embed : String → List ℝ)
    (hE : ∀ c, 0 < sumSq (embed c)) {s : VSState (List ℝ)} (h : NormInv s)
    (docs : List Document) (outcomes : ℕ → Bool) :
    NormInv (add_documents split embed normalizeL2 s docs outcomes) := by
  unfold add_documents
  cases hEq : successfulEmbeds embed outcomes (allChunks split docs) 0 with
  | nil => exact h
  | cons e es =>
    obtain ⟨h1, h2⟩ := h
    apply normInv_saveIndex
    refine ⟨?_, h2⟩
    intro v hv
    simp only [Option.getD_some] at hv
    rcases List.mem_append.mp hv with hv | hv
    · exact h1 v hv
    · obtain ⟨w, hw, rfl⟩ := List.mem_map.mp hv
      obtain ⟨c, rfl⟩ := successfulEmbeds_mem embed outcomes _ 0 w (hEq ▸ hw)
      exact sumSq_normalizeL2 (hE c)

lemma normInv_initState : NormInv (initState (E := List ℝ)) := by
  constructor
  · intro v hv
    simp [initState] at hv
  · intro f hf
    cases hf

lemma normInv_of_reachable (split : String → List String) (embed : String → List ℝ)
    (hE : ∀ c, 0 < sumSq (embed c)) {s : VSState (List ℝ)}
    (h : Reachable split embed normalizeL2 s) : NormInv s := by
  induction h with
  | refl => exact normInv_initState
  | tail _ hstep ih =>
    cases hstep with
    | add docs outcomes => exact normInv_addDocuments split embed hE ih docs outcomes
    | save => exact normInv_saveIndex ih
    | load ok => exact normInv_loadIndex ok ih

/-- C5: in every reachable state of a store whose embedding model yields
nonzero vectors, every vector stored in the FAISS index has L2 norm equal to
1.0 within 1e-4 (over exact reals the norm is exactly 1): `add_documents`
normalizes each embedding before `index.add`, and no other operation rescales
stored vectors. -/
theorem c5_stored_vectors_unit_norm (split : String → List String)
    (embed : String → List ℝ) (hE : ∀ c, 0 < sumSq (embed c))
    (s : VSState (List ℝ)) (hs : Reachable split embed normalizeL2 s) :
    ∀ v ∈ s.index.getD [], |Real.sqrt (sumSq v) - 1| ≤ 1 / 10000 := by
  intro v hv
  have h1 := (normInv_of_reachable split embed hE hs).1 v hv
  rw [h1, Real.sqrt_one, sub_self, abs_zero]
  norm_num

/-- Concrete nonzero embedding function for the C5 witness run. -/
noncomputable def embedW5 : String → List ℝ := fun _ => [3, 4]

/-- The C5 witness state: one successful `add_documents` call. -/
noncomputable def sW5 : VSState (List ℝ) :=
  add_documents splitW embedW5 normalizeL2 initState [docW] fun _ => true

/-- Witness for C5: the hypotheses hold for a concrete one-document run and
the conclusion follows for its stored vectors. -/
theorem c5_witness :
    (∀ c, 0 < sumSq (embedW5 c)) ∧ Reachable splitW embedW5 normalizeL2 sW5 ∧
      ∀ v ∈ sW5.index.getD [], |Real.sqrt (sumSq v) - 1| ≤ 1 / 10000 := by
  have hE : ∀ c, 0 < sumSq (embedW5 c) := by
    intro c
    simp only [embedW5, sumSq, List.map_cons, List.map_nil, List.sum_cons,
      List.sum_nil]
    norm_num
  have hr : Reachable splitW embedW5 normalizeL2 sW5 :=
    Relation.ReflTransGen.single (Step.add initState [docW] fun _ => true)
  exact ⟨hE, hr, c5_stored_vectors_unit_norm splitW embedW5 hE sW5 hr⟩

/-- C3 counterexample state: on disk the three artifacts exist and deserialize
fine but disagree in length (a 1-vector index file next to empty pickles —
exactly what the C1 run, or a crash between the three artifact writes, leaves
behind). -/
def s3bad : VSState ℚ := ⟨none, [], [], some [1], some [], some []⟩

/-- C3 counterexample: loading `s3bad` succeeds artifact-by-artifact, no
length-alignment check is made, and the store ends populated-but-misaligned
(1 vector, 0 documents) instead of resetting to the empty UNINITIALIZED
state. -/
theorem c3_counterexample :
    (s3bad.disk_faiss.getD []).length ≠ (s3bad.disk_docs.getD []).length ∧
      ntotal (_load_index s3bad true) = 1 ∧
      (_load_index s3bad true).documents = [] ∧
      (_load_index s3bad true).index ≠ none := by
  decide

/-- C3 (amended): `_load_index` never raises (it is a total function on the
model).  If some artifact exists and deserialization raises, the whole
in-memory state resets to empty.  An artifact whose file is missing is simply
skipped, keeping the corresponding in-memory field.  No length re-validation
is performed: on a successful load each in-memory field becomes exactly the
artifact that was present, aligned or not. -/
theorem c3_load_semantics {E : Type} (s : VSState E) :
    ((s.disk_faiss ≠ none ∨ s.disk_docs ≠ none ∨ s.disk_meta ≠ none) →
        _load_index s false = resetMem s) ∧
      (s.disk_faiss = none → (_load_index s true).index = s.index) ∧
      (∀ f, s.disk_faiss = some f → (_load_index s true).index = some f) ∧
      (s.disk_docs = none → (_load_index s true).documents = s.documents) ∧
      (∀ d, s.disk_docs = some d → (_load_index s true).documents = d) ∧
      (s.disk_meta = none → (_load_index s true).metadata = s.metadata) ∧
      (∀ m, s.disk_meta = some m → (_load_index s true).metadata = m) := by
  refine ⟨?_, ?_, ?_, ?_, ?_, ?_, ?_⟩
  · intro hp
    unfold _load_index
    simp only [Bool.false_eq_true, if_false]
    split
    · rename_i h1 h2 h3
      rcases hp with hp | hp | hp <;> simp_all
    · rfl
  · intro h
    simp [_load_index, h]
  · intro f h
    simp [_load_index, h]
  · intro h
    simp [_load_index, h]
  · intro d h
    simp [_load_index, h]
  · intro h
    simp [_load_index, h]
  · intro m h
    simp [_load_index, h]

/-- Witness for C3 (amended): at the concrete corrupt store `s3bad`, a load
with a deserialization failure resets the in-memory state. -/
theorem c3_witness :
    (s3bad.disk_faiss ≠ none ∨ s3bad.disk_docs ≠ none ∨ s3bad.disk_meta ≠ none) ∧
      _load_index s3bad false = resetMem s3bad :=
  ⟨Or.inl (by decide), (c3_load_semantics s3bad).1 (Or.inl (by decide))⟩

/-- A result dict of `similarity_search` (vector_store.py lines 215-220); also
the candidate shape consumed by the retriever. -/
structure SearchResult where
  content : String
  score : ℚ
  metadata : ChunkMeta
  source : String
deriving DecidableEq

/-- Python list indexing `l[i]`: negative indices count from the end; an index
below `-len(l)` or at/above `len(l)` raises IndexError (`none`). -/
def pythonGet {α : Type} (l : List α) (i : Int) : Option α :=
  if i < 0 then
    if (0 : Int) ≤ (l.length : Int) + i then l.get? ((l.length : Int) + i).toNat
    else none
  else l.get? i.toNat

/-- Distance filler used by faiss for padded entries when fewer than `n`
vectors exist.  The exact value is irrelevant to every claim (the code never
filters on the score); only the `-1` label of padded entries matters. -/
def padScore : ℚ := -(10 ^ 38)

/-- Inner products of the query against every stored vector, tagged with the
vector's insertion position. -/
def indexedScores {E : Type} (ip : E → E → ℚ) (qv : E) : List E → Int → List (ℚ × Int)
  | [], _ => []
  | v :: vs, i => (ip qv v, i) :: indexedScores ip qv vs (i + 1)

/-- Descending-score order with score ties broken by ascending insertion
position: the order in which an exact faiss index reports results. -/
def faissOrder (a b : ℚ × Int) : Prop := b.1 < a.1 ∨ (a.1 = b.1 ∧ a.2 ≤ b.2)

instance : DecidableRel faissOrder := fun _ _ =>
  inferInstanceAs (Decidable (_ ∨ _))

/-- `self.index.search(query_vector, n)` for an exact `IndexFlatIP` holding
`vs`: the `n` best (score, label) pairs by descending inner product (ties by
insertion order), padded with `-1` labels when fewer than `n` vectors exist
(documented faiss behaviour).  A stable insertion sort realizes the order. -/
def faissSearch {E : Type} (ip : E → E → ℚ) (vs : List E) (qv : E) (n : ℕ) :
    List (ℚ × Int) :=
  let sorted := (indexedScores ip qv vs 0).insertionSort faissOrder
  let top := sorted.take n
  top ++ List.replicate (n - top.length) (padScore, (-1 : Int))

/-- The result-building loop of `similarity_search` (vector_store.py lines
204-223), in Python order: skip labels `>= len(self.documents)`; fetch
`self.metadata[idx]` (may raise); skip when the category filter is truthy
(non-empty string) and the category differs; build the result dict (fetching
`self.documents[idx]`, may raise); stop once `k` results are collected.
`none` models an uncaught IndexError. -/
def searchLoop (docs : List String) (meta : List ChunkMeta)
    (filt : Option String) (k : ℕ) :
    List (ℚ × Int) → List SearchResult → Option (List SearchResult)
  | [], acc => some acc.reverse
  | p :: rest, acc =>
    if (docs.length : Int) ≤ p.2 then searchLoop docs meta filt k rest acc
    else
      match pythonGet meta p.2 with
      | none => none
      | some md =>
        if (match filt with
            | none => false
            | some c => decide (c ≠ "") && decide (md.category ≠ c)) then
          searchLoop docs meta filt k rest acc
        else
          match pythonGet docs p.2 with
          | none => none
          | some content =>
            let acc2 : List SearchResult := ⟨content, p.1, md, md.source⟩ :: acc
            if k ≤ acc2.length then some acc2.reverse
            else searchLoop docs meta filt k rest acc2

/-- `similarity_search` (vector_store.py lines 187-225): empty result on an
unset index; otherwise embed and normalize the query, search `k * 2`
candidates and run the filter loop. -/
def similarity_search {E : Type} (emq : String → E) (normalize : E → E)
    (ip : E → E → ℚ) (s : VSState E) (q : String) (k : ℕ)
    (filt : Option String) : Option (List SearchResult) :=
  match s.index with
  | none => some []
  | some vs =>
    searchLoop s.documents s.metadata filt k
      (faissSearch ip vs (normalize (emq q)) (k * 2)) []

/-- `retrieve_by_category` (retriever.py lines 53-55): delegate to
`similarity_search` with the category filter set. -/
def retrieve_by_category {E : Type} (emq : String → E) (normalize : E → E)
    (ip : E → E → ℚ) (s : VSState E) (q c : String) (k : ℕ) :
    Option (List SearchResult) :=
  similarity_search emq normalize ip s q k (some c)

lemma similaritySearch_congr_mem {E : Type} (emq : String → E) (nrm : E → E)
    (ip : E → E → ℚ) {s t : VSState E} (h1 : s.index = t.index)
    (h2 : s.documents = t.documents) (h3 : s.metadata = t.metadata)
    (q : String) (k : ℕ) (filt : Option String) :
    similarity_search emq nrm ip s q k filt =
      similarity_search emq nrm ip t q k filt := by
  unfold similarity_search
  rw [h1, h2, h3]

/-- C6: for every populated store, `_save_index` followed by a successful
`_load_index` restores the exact in-memory state (index vectors, chunk texts
and metadata), hence every `similarity_search(q, k)` call returns identical
results — texts, metadata and scores — before and after the round trip. -/
theorem c6_roundtrip_search {E : Type} (emq : String → E) (nrm : E → E)
    (ip : E → E → ℚ) (s : VSState E) (v : List E) (hpop : s.index = some v) :
    (_load_index (_save_index s) true).index = s.index ∧
      (_load_index (_save_index s) true).documents = s.documents ∧
      (_load_index (_save_index s) true).metadata = s.metadata ∧
      ∀ (q : String) (k : ℕ) (filt : Option String),
        similarity_search emq nrm ip (_load_index (_save_index s) true) q k filt =
          similarity_search emq nrm ip s q k filt := by
  have h1 : (_load_index (_save_index s) true).index = s.index := by
    simp [_load_index, _save_index, hpop]
  have h2 : (_load_index (_save_index s) true).documents = s.documents := by
    simp [_load_index, _save_index]
  have h3 : (_load_index (_save_index s) true).metadata = s.metadata := by
    simp [_load_index, _save_index]
  exact ⟨h1, h2, h3, fun q k filt =>
    similaritySearch_congr_mem emq nrm ip h1 h2 h3 q k filt⟩

/-- Concrete chunk metadata used by the search witnesses. -/
def metaW : ChunkMeta := ⟨"src", "general", "src_0", "d"⟩

/-- Concrete populated one-vector store for the C6 witness. -/
def sC6 : VSState ℚ := ⟨some [1], ["hello world"], [metaW], none, none, none⟩

/-- Concrete query embedder for the search witnesses. -/
def emqW : String → ℚ := fun _ => 1

/-- Concrete scoring function for the search witnesses (constant, so that
concrete runs evaluate inside the kernel, where `Rat.mul` does not reduce). -/
def ipW : ℚ → ℚ → ℚ := fun _ _ => 1

/-- Witness for C6 at a concrete populated one-vector store. -/
theorem c6_witness :
    sC6.index = some [1] ∧
      similarity_search emqW id ipW (_load_index (_save_index sC6) true) "q" 1 none =
        similarity_search emqW id ipW sC6 "q" 1 none :=
  ⟨rfl, (c6_roundtrip_search emqW id ipW sC6 [1] rfl).2.2.2 "q" 1 none⟩

lemma pythonGet_some {α : Type} (l : List α) (i : Int)
    (h1 : 0 ≤ i ∨ i = -1) (h2 : i < (l.length : Int)) (h3 : 0 < l.length) :
    ∃ a, pythonGet l i = some a := by
  rcases h1 with h1 | h1
  · have hn : i.toNat < l.length := by omega
    refine ⟨l.get ⟨i.toNat, hn⟩, ?_⟩
    unfold pythonGet
    rw [if_neg (by omega)]
    exact List.get?_eq_get hn
  · subst h1
    have hn : ((l.length : Int) + -1).toNat < l.length := by omega
    refine ⟨l.get ⟨((l.length : Int) + -1).toNat, hn⟩, ?_⟩
    unfold pythonGet
    rw [if_pos (by omega), if_pos (by omega)]
    exact List.get?_eq_get hn

lemma indexedScores_idx {E : Type} (ip : E → E → ℚ) (qv : E) :
    ∀ (vs : List E) (i : Int) (p : ℚ × Int), p ∈ indexedScores ip qv vs i → i ≤ p.2
  | [], _, p, h => absurd h (List.not_mem_nil p)
  | v :: vs, i, p, h => by
    rcases List.mem_cons.mp h with h | h
    · subst h
      exact le_refl i
    · have := indexedScores_idx ip qv vs (i + 1) p h
      omega

lemma faissSearch_labels {E : Type} (ip : E → E → ℚ) (vs : List E) (qv : E)
    (n : ℕ) : ∀ p ∈ faissSearch ip vs qv n, 0 ≤ p.2 ∨ p.2 = -1 := by
  intro p hp
  simp only [faissSearch] at hp
  rcases List.mem_append.mp hp with hp | hp
  · left
    have hmem : p ∈ (indexedScores ip qv vs 0).insertionSort faissOrder :=
      List.take_subset _ _ hp
    have hm := (List.mem_insertionSort faissOrder).mp hmem
    exact indexedScores_idx ip qv vs 0 p hm
  · right
    have hpad := List.eq_of_mem_replicate hp
    rw [hpad]

lemma searchLoop_sound (docs : List String) (meta : List ChunkMeta) (c : String)
    (hc : c ≠ "") (hlen : docs.length ≤ meta.length) (hpos : 0 < docs.length)
    (k : ℕ) :
    ∀ (pairs : List (ℚ × Int)) (acc : List SearchResult),
      (∀ p ∈ pairs, 0 ≤ p.2 ∨ p.2 = -1) →
      (∀ r ∈ acc, r.metadata.category = c) →
      acc.length < k →
      ∃ rs, searchLoop docs meta (some c) k pairs acc = some rs ∧
        (∀ r ∈ rs, r.metadata.category = c) ∧ rs.length ≤ k := by
  intro pairs
  induction pairs with
  | nil =>
    intro acc _ hacc hlt
    refine ⟨acc.reverse, rfl, ?_, ?_⟩
    · intro r hr
      exact hacc r (List.mem_reverse.mp hr)
    · rw [List.length_reverse]
      omega
  | cons p rest ih =>
    intro acc hp hacc hlt
    have hrest : ∀ q ∈ rest, 0 ≤ q.2 ∨ q.2 = -1 :=
      fun q hq => hp q (List.mem_cons_of_mem p hq)
    by_cases hguard : (docs.length : Int) ≤ p.2
    · rw [show searchLoop docs meta (some c) k (p :: rest) acc =
          searchLoop docs meta (some c) k rest acc by
        simp [searchLoop, hguard]]
      exact ih acc hrest hacc hlt
    · have hplt : p.2 < (docs.length : Int) := lt_of_not_le hguard
      have hcase := hp p (List.mem_cons_self p rest)
      have hm2 : p.2 < (meta.length : Int) := by omega
      obtain ⟨md, hmd⟩ := pythonGet_some meta p.2 hcase hm2 (by omega)
      obtain ⟨content, hct⟩ := pythonGet_some docs p.2 hcase hplt hpos
      by_cases hcat : md.category = c
      · have hstep : searchLoop docs meta (some c) k (p :: rest) acc =
            (if k ≤ (SearchResult.mk content p.1 md md.source :: acc).length then
              some (SearchResult.mk content p.1 md md.source :: acc).reverse
            else searchLoop docs meta (some c) k rest
              (SearchResult.mk content p.1 md md.source :: acc)) := by
          simp [searchLoop, hguard, hmd, hct, hcat]
        rw [hstep]
        have hacc2 : ∀ r ∈ SearchResult.mk content p.1 md md.source :: acc,
            r.metadata.category = c := by
          intro r hr
          rcases List.mem_cons.mp hr with hr | hr
          · rw [hr]
            exact hcat
          · exact hacc r hr
        by_cases hfull : k ≤ (SearchResult.mk content p.1 md md.source :: acc).length
        · rw [if_pos hfull]
          refine ⟨_, rfl, ?_, ?_⟩
          · intro r hr
            exact hacc2 r (List.mem_reverse.mp hr)
          · rw [List.length_reverse]
            simp only [List.length_cons] at hfull ⊢
            omega
        · rw [if_neg hfull]
          refine ih _ hrest hacc2 ?_
          simp only [List.length_cons] at hfull ⊢
          omega
      · rw [show searchLoop docs meta (some c) k (p :: rest) acc =
            searchLoop docs meta (some c) k rest acc by
          simp [searchLoop, hguard, hmd, hcat, hc]]
        exact ih acc hrest hacc hlt

/-- Store-side sanity hypotheses under which `retrieve_by_category` cannot
raise: the three containers are aligned and an existing index is nonempty
(both hold in every state reachable without load failures). -/
def StoreOk {E : Type} (s : VSState E) : Prop :=
  match s.index with
  | none => True
  | some vs =>
      vs.length = s.documents.length ∧ s.documents.length = s.metadata.length ∧
        0 < vs.length

/-- C7 (amended): for every aligned store and every NON-empty category string
`c`, `retrieve_by_category(q, c, k)` raises nothing, every element of the
returned list has metadata category exactly `c`, and at most `k` results are
returned; when fewer of the searched candidates match, the list is just
shorter (possibly empty).  For `c = ""` Python's `if category_filter and ...`
truthiness test disables the filter — see the counterexample. -/
theorem c7_category_filter {E : Type} (emq : String → E) (nrm : E → E)
    (ip : E → E → ℚ) (s : VSState E) (hs : StoreOk s) (q c : String)
    (hc : c ≠ "") (k : ℕ) :
    ∃ rs, retrieve_by_category emq nrm ip s q c k = some rs ∧
      (∀ r ∈ rs, r.metadata.category = c) ∧ rs.length ≤ k := by
  unfold retrieve_by_category similarity_search
  cases hI : s.index with
  | none => exact ⟨[], rfl, by simp, by simp⟩
  | some vs =>
    unfold StoreOk at hs
    rw [hI] at hs
    obtain ⟨hlen1, hlen2, hpos⟩ := hs
    by_cases hk : k = 0
    · subst hk
      exact ⟨[], rfl, by simp, le_refl 0⟩
    · have hk2 : 0 < k := Nat.pos_of_ne_zero hk
      exact searchLoop_sound s.documents s.metadata c hc (by omega) (by omega) k
        (faissSearch ip vs (nrm (emq q)) (k * 2)) []
        (faissSearch_labels ip vs (nrm (emq q)) (k * 2)) (by simp) (by simpa)

/-- Concrete aligned one-chunk store with category "tax" for the C7 witness. -/
def sC7 : VSState ℚ :=
  ⟨some [1], ["investment basics text"], [⟨"src", "tax", "src_0", "d"⟩],
    none, none, none⟩

/-- Witness for C7 (amended) at a concrete store and category. -/
theorem c7_witness :
    StoreOk sC7 ∧ ("tax" : String) ≠ "" ∧
      ∃ rs, retrieve_by_category emqW id ipW sC7 "q" "tax" 1 = some rs ∧
        (∀ r ∈ rs, r.metadata.category = "tax") ∧ rs.length ≤ 1 :=
  ⟨⟨rfl, rfl, Nat.one_pos⟩, by decide,
    c7_category_filter emqW id ipW sC7 ⟨rfl, rfl, Nat.one_pos⟩ "q" "tax"
      (by decide) 1⟩

/-- Concrete store whose only chunk has category "general", for the C7
counterexample. -/
def sC7bad : VSState ℚ :=
  ⟨some [1], ["this is a sufficiently long text"], [metaW], none, none, none⟩

/-- C7 counterexample: with the empty-string category, Python's
`if category_filter and ...` truthiness test disables the filter entirely, so
`retrieve_by_category(q, "", 1)` returns a result whose metadata category is
"general", not `""` — refuting the claim for the category `c = ""`. -/
theorem c7_counterexample :
    retrieve_by_category emqW id ipW sC7bad "q" "" 1 =
      some [⟨"this is a sufficiently long text", 1, metaW, "src"⟩] ∧
      metaW.category ≠ "" := by
  constructor
  · decide
  · decide

/-- A reranked result: the original candidate dict, unchanged, plus the single
extra key added by `{**candidate, "rerank_score": final_score}`. -/
structure RerankedResult where
  base : SearchResult
  rerank_score : ℚ
deriving DecidableEq

/-- Descending order on the composite score, realized by Python's stable
`sort(key=lambda x: x["rerank_score"], reverse=True)`. -/
def rerankOrder (a b : RerankedResult) : Prop := b.rerank_score ≤ a.rerank_score

instance : DecidableRel rerankOrder := fun _ _ =>
  inferInstanceAs (Decidable (_ ≤ _))

instance : IsTotal RerankedResult rerankOrder :=
  ⟨fun a b => le_total b.rerank_score a.rerank_score⟩

instance : IsTrans RerankedResult rerankOrder :=
  ⟨fun _ _ _ h1 h2 => le_trans h2 h1⟩

/-- `source_counts.get(source, 0)` for the association-list model of the
Python dict (most recent binding first). -/
def sourceCount (counts : List (String × ℕ)) (src : String) : ℕ :=
  match counts.find? fun p => decide (p.1 = src) with
  | none => 0
  | some p => p.2

/-- The scoring loop of `_rerank_results` (retriever.py lines 135-152): walk
the candidates keeping running per-source counts, annotating each candidate
with `similarity*0.7 + (1/count)*0.2 + min(len(content)/500, 1.0)*0.1` where
`count` includes the candidate itself. -/
def rerankLoop : List SearchResult → List (String × ℕ) → List RerankedResult
  | [], _ => []
  | cand :: rest, counts =>
    let src := cand.metadata.source
    let n := sourceCount counts src + 1
    let diversity : ℚ := 1 / (n : ℚ)
    let lenScore : ℚ := min ((cand.content.length : ℚ) / 500) 1
    ⟨cand, cand.score * (7 / 10) + diversity * (2 / 10) + lenScore * (1 / 10)⟩ ::
      rerankLoop rest ((src, n) :: counts)

/-- `_rerank_results` (retriever.py lines 122-156): empty input
short-circuits; otherwise annotate with composite scores, sort descending by
`rerank_score` (stable) and keep the first `k`.  The `originalQuery` argument
is accepted and unused, exactly as in the source. -/
def _rerank_results (candidates : List SearchResult) (_originalQuery : String)
    (k : ℕ) : List RerankedResult :=
  match candidates with
  | [] => []
  | _ :: _ => ((rerankLoop candidates []).insertionSort rerankOrder).take k

/-- The composite score exactly as the specification words it:
`0.7 × similarity_score + 0.2 × diversity_bonus + 0.1 × content_length_score`. -/
def specScore (cand : SearchResult) (sameSoFar : ℕ) : ℚ :=
  (7 / 10) * cand.score + (2 / 10) * (1 / (sameSoFar : ℚ)) +
    (1 / 10) * min ((cand.content.length : ℚ) / 500) 1

/-- Spec-side annotation ("number of candidates from the same source
encountered so far in list order, including this one"): `seen` holds the
candidates already encountered. -/
def rerankSpecAux (seen : List SearchResult) :
    List SearchResult → List RerankedResult
  | [] => []
  | cand :: rest =>
    let seenNow := seen ++ [cand]
    let sameSoFar := (seenNow.filter fun d =>
      decide (d.metadata.source = cand.metadata.source)).length
    ⟨cand, specScore cand sameSoFar⟩ :: rerankSpecAux seenNow rest

/-- Reranking as the specification describes it: annotate each candidate with
the composite score, sort descending by it, truncate to the first `k`. -/
def rerankResultsSpec (candidates : List SearchResult) (k : ℕ) :
    List RerankedResult :=
  ((rerankSpecAux [] candidates).insertionSort rerankOrder).take k

lemma sourceCount_cons (src t : String) (n : ℕ) (counts : List (String × ℕ)) :
    sourceCount ((src, n) :: counts) t =
      if src = t then n else sourceCount counts t := by
  by_cases h : src = t
  · simp [sourceCount, List.find?, h]
  · simp [sourceCount, List.find?, h]

lemma rerankLoop_eq_spec :
    ∀ (cs : List SearchResult) (counts : List (String × ℕ))
      (seen : List SearchResult),
      (∀ src, sourceCount counts src =
        (seen.filter fun d => decide (d.metadata.source = src)).length) →
      rerankLoop cs counts = rerankSpecAux seen cs
  | [], _, _, _ => rfl
  | cand :: rest, counts, seen, h => by
    have hsrc := h cand.metadata.source
    have hcount : sourceCount counts cand.metadata.source + 1 =
        ((seen ++ [cand]).filter fun d =>
          decide (d.metadata.source = cand.metadata.source)).length := by
      rw [List.filter_append]
      simp [hsrc]
    simp only [rerankLoop, rerankSpecAux]
    congr 1
    · rw [← hcount]
      unfold specScore
      congr 1
      ring
    · apply rerankLoop_eq_spec rest _ (seen ++ [cand])
      intro src
      rw [sourceCount_cons]
      by_cases hs : cand.metadata.source = src
      · rw [if_pos hs, List.filter_append, List.length_append, ← h src]
        simp [hs]
      · rw [if_neg hs, List.filter_append, List.length_append, ← h src]
        simp [hs]

/-- C4: reranking computes, for every candidate, the composite score
`0.7*similarity + 0.2*diversity + 0.1*content_length` with
`diversity = 1/(same-source candidates seen so far, including this one)` and
`content_length = min(len(content)/500, 1.0)`, and returns the candidates
sorted in descending order of that score, truncated to the first `k`
(`rerankResultsSpec` transcribes the claim; the second conjunct certifies the
descending order). -/
theorem c4_rerank_formula (candidates : List SearchResult) (q : String) (k : ℕ) :
    _rerank_results candidates q k = rerankResultsSpec candidates k ∧
      List.Pairwise (fun a b => b.rerank_score ≤ a.rerank_score)
        (_rerank_results candidates q k) := by
  have heq : _rerank_results candidates q k = rerankResultsSpec candidates k := by
    cases candidates with
    | nil => simp [_rerank_results, rerankResultsSpec, rerankSpecAux]
    | cons c cs =>
      unfold _rerank_results rerankResultsSpec
      rw [rerankLoop_eq_spec (c :: cs) [] [] fun src => rfl]
  refine ⟨heq, ?_⟩
  cases candidates with
  | nil => simp [_rerank_results]
  | cons c cs =>
    unfold _rerank_results
    have hs := List.sorted_insertionSort rerankOrder (rerankLoop (c :: cs) [])
    exact List.Pairwise.sublist (List.take_sublist _ _) hs

lemma rerankLoop_base_mem :
    ∀ (cs : List SearchResult) (counts : List (String × ℕ))
      (r : RerankedResult), r ∈ rerankLoop cs counts → r.base ∈ cs
  | [], _, r, h => absurd h (List.not_mem_nil r)
  | cand :: rest, counts, r, h => by
    simp only [rerankLoop] at h
    rcases List.mem_cons.mp h with h | h
    · subst h
      exact List.mem_cons_self _ _
    · exact List.mem_cons_of_mem _ (rerankLoop_base_mem rest _ r h)

/-- C10: reranking is a pure reorder-and-annotate: every element of the output
is one of the input candidate dicts with content, score, metadata and source
unchanged (its `base`), carrying exactly one extra key `rerank_score`, and at
most `k` elements are returned. -/
theorem c10_rerank_frame (candidates : List SearchResult) (q : String) (k : ℕ) :
    (∀ r ∈ _rerank_results candidates q k, r.base ∈ candidates) ∧
      (_rerank_results candidates q k).length ≤ k := by
  cases candidates with
  | nil => exact ⟨by simp [_rerank_results], by simp [_rerank_results]⟩
  | cons c cs =>
    constructor
    · intro r hr
      unfold _rerank_results at hr
      have h1 : r ∈ (rerankLoop (c :: cs) []).insertionSort rerankOrder :=
        List.take_subset _ _ hr
      have h2 := (List.mem_insertionSort rerankOrder).mp h1
      exact rerankLoop_base_mem (c :: cs) [] r h2
    · unfold _rerank_results
      rw [List.length_take]
      exact min_le_left _ _

/-- `self.domain_keywords` (retriever.py lines 22-27). -/
def domain_keywords : List (String × List String) :=
  [("investment", ["stocks", "bonds", "ETFs", "mutual funds", "portfolio"]),
   ("retirement", ["401k", "IRA", "pension", "social security"]),
   ("risk", ["volatility", "diversification", "asset allocation"]),
   ("analysis", ["valuation", "ratios", "performance", "metrics"])]

/-- Is `pat` a prefix of the second list? -/
def prefAt : List Char → List Char → Bool
  | [], _ => true
  | _ :: _, [] => false
  | a :: as, b :: bs => a == b && prefAt as bs

/-- Python's substring test `pat in s`, over character lists. -/
def hasSub (pat : List Char) : List Char → Bool
  | [] => prefAt pat []
  | c :: rest => prefAt pat (c :: rest) || hasSub pat rest

/-- `_enhance_query` (retriever.py lines 104-120): for every keyword group
with a member occurring in the lowercased query, append the group's first two
keywords to the query.  Python materializes `set(enhanced_terms)`, whose
iteration order is unspecified; the model keeps first occurrences — no claim
depends on that order. -/
def _enhance_query (q : String) : String :=
  let ql := q.toLower.toList
  let terms := (domain_keywords.filter fun kw =>
    kw.2.any fun w => hasSub w.toList ql).flatMap fun kw => kw.2.take 2
  match terms with
  | [] => q
  | _ :: _ => q ++ " " ++ " ".intercalate terms.dedup

/-- `retrieve` (retriever.py lines 29-51): optionally enhance the query, fetch
`k*2` candidates via `similarity_search`, then rerank down to `k`. -/
def retrieve {E : Type} (emq : String → E) (normalize : E → E) (ip : E → E → ℚ)
    (s : VSState E) (q : String) (k : ℕ) (enhance : Bool) :
    Option (List RerankedResult) :=
  (similarity_search emq normalize ip s
      (if enhance then _enhance_query q else q) (k * 2) none).map
    fun cands => _rerank_results cands q k

/-- C8: `retrieve` on a store whose index is unset (freshly constructed, or
reset by a failed load) returns the empty list — for every query, every `k`
and either value of the enhance flag — and raises nothing. -/
theorem c8_empty_index_retrieve {E : Type} (emq : String → E) (nrm : E → E)
    (ip : E → E → ℚ) (s : VSState E) (h : s.index = none) (q : String)
    (k : ℕ) (enhance : Bool) :
    retrieve emq nrm ip s q k enhance = some [] := by
  unfold retrieve similarity_search
  rw [h]
  rfl

/-- Witness for C8 at the freshly constructed store. -/
theorem c8_witness :
    (initState : VSState ℚ).index = none ∧
      retrieve emqW id ipW initState "how should I invest" 5 true = some [] :=
  ⟨rfl, c8_empty_index_retrieve emqW id ipW initState rfl
    "how should I invest" 5 true⟩

/-- The single-quote character as a string, used in the context header. -/
def squote : String := String.singleton (Char.ofNat 39)

/-- The passage-collection loop of `build_context` (retriever.py lines
77-92): skip contents shorter than 50 characters, include at most 5 passages,
each preceded by a source-attribution tag.  `fmt` models Python's `"{:.3f}"`
float formatting of the score (text formatting of floats is external to the
model). -/
def contextLoop (fmt : ℚ → String) : List SearchResult → ℕ → List String
  | [], _ => []
  | d :: rest, included =>
    if 5 ≤ included then []
    else if d.content.length < 50 then contextLoop fmt rest included
    else
      ("\n[Source " ++ toString (included + 1) ++ ": " ++ d.metadata.source ++
        " - Relevance: " ++ fmt d.score ++ "]") :: d.content ::
        contextLoop fmt rest (included + 1)

/-- `build_context` (retriever.py lines 57-102): the empty result list yields
the fixed sentinel; otherwise a header, the included passages (or, when none
qualifies, the raw top-2 fallback), and the closing instruction are joined
with newlines. -/
def build_context (fmt : ℚ → String) (q : String)
    (retrieved : List SearchResult) : String :=
  match retrieved with
  | [] => "No relevant information found in knowledge base."
  | _ :: _ =>
    let body := contextLoop fmt retrieved 0
    let parts :=
      ["Based on the following information relevant to: " ++ squote ++ q ++
        squote ++ "\n"] ++
      (match body with
       | [] => "\n[Available Information]" ::
           (retrieved.take 2).map fun d => d.content
       | _ :: _ => body) ++
      ["\nPlease provide a comprehensive answer based on this information, citing the relevant sources."]
    String.intercalate "\n" parts

/-- C9 counterexample: on an empty result list `build_context` returns ONLY
the fixed sentinel sentence — a string that contains no instruction to answer
from general knowledge (it does not even contain the words "general
knowledge"), refuting the second half of the claim. -/
theorem c9_counterexample :
    build_context (fun _ => "") "any query" [] =
      "No relevant information found in knowledge base." ∧
      hasSub "general knowledge".toList
        "No relevant information found in knowledge base.".toList = false := by
  constructor
  · rfl
  · decide

/-- C9 (amended): for every query and every score formatter, `build_context`
on an empty result list returns exactly the fixed sentinel
"No relevant information found in knowledge base.", with no accompanying
instruction. -/
theorem c9_empty_context (fmt : ℚ → String) (q : String) :
    build_context fmt q [] = "No relevant information found in knowledge base." :=
  rfl

end FinRAG
